import Mathlib

/-!
Shallow embedding of the pull-request workflow orchestrator of
`src/lib/cmds/pull-request.js` (the `PullRequest` command of the `gh` CLI),
together with proofs about it.

Modelling conventions:
* JavaScript strings are lists of characters (`Str`).
* `undefined`-able values are `Option`s; JavaScript truthiness is made
  explicit (`jsTruthy*`).
* The remote hosting API and the local version-control commands are oracles
  (`Github`, `Git`): structures of functions supplied by the environment.
* Callback pipelines (`async.series`) are sequential `Except` computations;
  mutations of the shared option bag are explicit state passing.
-/

/-- JavaScript strings, modelled as lists of characters. -/
abbrev Str := List Char

/-- A JavaScript value that can sit in the option bag's `number` slot: either
a string (e.g. decoded from a branch name) or a number (e.g. a pull-request
number coming from the remote API or the CLI). -/
inductive JSVal where
  | str (s : Str)
  | num (n : Nat)
  deriving DecidableEq

/-- Decimal digits of `n`, most significant first, pushed onto `acc`; the
first argument is fuel (structural recursion so that the kernel can
evaluate it). -/
def natToCharsGo : Nat → Nat → List Char → List Char
  | 0, _, acc => acc
  | fuel + 1, n, acc =>
    if n == 0 then acc
    else natToCharsGo fuel (n / 10) (Char.ofNat (48 + n % 10) :: acc)

/-- The decimal representation of a natural number; models the JavaScript
number-to-string conversion performed by string concatenation. -/
def natToChars (n : Nat) : Str :=
  if n == 0 then ['0'] else natToCharsGo n n []

/-- JavaScript string conversion of the values the `number` slot can hold. -/
def JSVal.toStr : JSVal → Str
  | .str s => s
  | .num n => natToChars n

/-- JavaScript truthiness of the values the `number` slot can hold: the
empty string and the number 0 are falsy. -/
def JSVal.truthy : JSVal → Bool
  | .str s => !s.isEmpty
  | .num n => n != 0

/-- JavaScript truthiness of a possibly-undefined `number` slot. -/
def jsTruthy : Option JSVal → Bool
  | none => false
  | some v => v.truthy

/-- JavaScript truthiness of a possibly-undefined string: `undefined` and the
empty string are falsy. -/
def jsTruthyStr : Option Str → Bool
  | none => false
  | some s => !s.isEmpty

/-- JavaScript truthiness of a possibly-undefined number: `undefined` and 0
are falsy. -/
def jsTruthyNat : Option Nat → Bool
  | none => false
  | some n => n != 0

/-- Model of JavaScript `String.prototype.replace` with a plain-string
pattern and an empty replacement string: remove the first occurrence of
`pat`, if any. -/
def replaceFirstL (pat : Str) : Str → Str
  | [] => []
  | c :: cs =>
    if pat.isPrefixOf (c :: cs) then List.drop pat.length (c :: cs)
    else c :: replaceFirstL pat cs

/-- `getBranchNameFromPullNumber_` (pull-request.js:421-425): when `number`
is truthy, return the configured branch prefix concatenated with it;
otherwise return `undefined`. -/
def getBranchNameFromPullNumber (pfx : Str) : Option JSVal → Option Str
  | some v => if v.truthy then some (pfx ++ v.toStr) else none
  | none => none

/-- `getPullRequestNumberFromBranch_` (pull-request.js:427-431): when
`currentBranch` is truthy and starts with `pfx` (lodash `startsWith`),
return `currentBranch.replace(pfx, '')`; otherwise return `undefined`. -/
def getPullRequestNumberFromBranch : Option Str → Str → Option Str
  | none, _ => none
  | some b, pfx =>
    if !b.isEmpty && pfx.isPrefixOf b then some (replaceFirstL pfx b) else none

/-- The change-size metrics of one pull request, as read off the detail
record by `addComplexityParamToPulls_` (pull-request.js:217-223). -/
structure Metrics where
  additions : Nat
  changedFiles : Nat
  comments : Nat
  deletions : Nat
  reviewComments : Nat
  deriving DecidableEq

/-- `calculateComplexity_` (pull-request.js:244-260); the literals are the
source's fixed weights (`weightAddition = 2`, `weightChangedFile = 2`,
`weightComment = 2`, `weightDeletion = 2`, `weightReviewComment = 1`). -/
def calculateComplexity (metrics : Metrics) : Nat :=
  metrics.additions * 2 + metrics.changedFiles * 2 + metrics.comments * 2 +
    metrics.deletions * 2 + metrics.reviewComments * 1

-- ---------------------------------------------------------------------------
-- Data model: pull requests, the option bag, the configuration
-- ---------------------------------------------------------------------------

/-- One side (base or head) of a pull request: its branch name (`ref`), its
commit `sha`, the `login` of its owning user (`user.login` in the payload)
and, for the head side, the clone URL of its repository
(`repo.ssh_url`). -/
structure RefInfo where
  ref : Str := []
  sha : Str := []
  login : Str := []
  sshUrl : Str := []
  deriving DecidableEq

/-- A pull-request record as the remote API returns it; the fields with
source-style snake_case names carry the change-size metrics of the detail
record, and `complexity` / `combinedStatus` are the two fields the lister
computes and attaches locally. -/
structure Pull where
  number : Nat := 0
  login : Str := []
  title : Str := []
  body : Str := []
  base : RefInfo := {}
  head : RefInfo := {}
  additions : Nat := 0
  changed_files : Nat := 0
  comments : Nat := 0
  deletions : Nat := 0
  review_comments : Nat := 0
  complexity : Option Nat := none
  combinedStatus : Option Str := none
  deriving DecidableEq

/-- The mutable per-invocation option bag (`this.options`); `openFlag`
models `options.open` (`open` is a Lean keyword). -/
structure Options where
  all : Bool := false
  branch : Option Str := none
  browser : Bool := false
  close : Bool := false
  comment : Option Str := none
  currentBranch : Option Str := none
  description : Option Str := none
  direction : Option Str := none
  fetch : Bool := false
  fwd : Option Str := none
  info : Bool := false
  issue : Option Nat := none
  list : Bool := false
  loggedUser : Str := []
  me : Bool := false
  merge : Bool := false
  number : Option JSVal := none
  openFlag : Bool := false
  org : Option Str := none
  pullBranch : Option Str := none
  rebase : Bool := false
  repo : Str := []
  sort : Option Str := none
  state : Str := []
  submit : Option Str := none
  title : Option Str := none
  user : Str := []
  deriving DecidableEq

/-- The slice of the loaded configuration the orchestrator reads;
`pullBranchNamePfx` models `config.pull_branch_name_prefix`. -/
structure Config where
  pullBranchNamePfx : Str := []
  defaultBranch : Str := []
  defaultPrForwarder : Option Str := none
  defaultPrReviewer : Option Str := none
  deriving DecidableEq

/-- `PullRequest.DIRECTION_ASC`. -/
def DIRECTION_ASC : Str := ['a', 's', 'c']

/-- `PullRequest.DIRECTION_DESC`. -/
def DIRECTION_DESC : Str := ['d', 'e', 's', 'c']

/-- `PullRequest.SORT_CREATED`. -/
def SORT_CREATED : Str := ['c', 'r', 'e', 'a', 't', 'e', 'd']

/-- `PullRequest.SORT_COMPLEXITY`. -/
def SORT_COMPLEXITY : Str := ['c', 'o', 'm', 'p', 'l', 'e', 'x', 'i', 't', 'y']

/-- `PullRequest.STATE_OPEN`. -/
def STATE_OPEN : Str := ['o', 'p', 'e', 'n']

/-- `PullRequest.STATE_CLOSED`. -/
def STATE_CLOSED : Str := ['c', 'l', 'o', 's', 'e', 'd']

-- ---------------------------------------------------------------------------
-- The remote-API and version-control oracles
-- ---------------------------------------------------------------------------

/-- A remote API error; `code` models `err.code` (404 is the not-found
class). -/
structure ApiErr where
  code : Nat
  deriving DecidableEq

/-- The payload of `base.github.pullRequests.getAll`; the lister fills all
five fields, the integrity check only `user`/`repo`/`state`. -/
structure GetAllPayload where
  user : Str
  repo : Str
  state : Str
  sort : Option Str := none
  direction : Option Str := none
  deriving DecidableEq

/-- The payload of `base.github.pullRequests.create` /
`createFromIssue`. -/
structure CreatePayload where
  base : Option Str := none
  head : Str := []
  repo : Str := []
  user : Str := []
  issue : Option Nat := none
  body : Option Str := none
  title : Option Str := none
  deriving DecidableEq

/-- The payload of `base.github.repos.getAll` / `getFromOrg`; `reqType`
models `payload.type` and `perPage` models `payload.per_page`. -/
structure ReposPayload where
  reqType : Str := []
  user : Str := []
  org : Option Str := none
  perPage : Nat := 100
  deriving DecidableEq

/-- The combined CI status of a commit (`statuses.getCombined` result). -/
structure CombinedStatus where
  state : Str
  deriving DecidableEq

/-- A repository record from the repos listing: `owner.login` and
`name`. -/
structure Repo where
  ownerLogin : Str
  name : Str
  deriving DecidableEq

/-- The remote hosting API, as an oracle: each method maps its request
payload to the response the remote would deliver to the callback
(`Except.error` models a truthy `err` argument). -/
structure Github where
  getAll : GetAllPayload → Except ApiErr (List Pull)
  getPull : Str → Str → Option JSVal → Except ApiErr Pull
  getCombined : Str → Str → Str → Except ApiErr CombinedStatus
  reposGetAll : ReposPayload → Except ApiErr (List Repo)
  reposGetFromOrg : ReposPayload → Except ApiErr (List Repo)
  createPull : CreatePayload → Except ApiErr Pull
  createFromIssue : CreatePayload → Except ApiErr Pull

/-- The slice of the version-control collaborator the submit pipeline
reads (keyed by the branch argument). -/
structure Git where
  getLastCommitMessage : Option Str → Str

/-- `getPullRequest_` (pull-request.js:407-419): fetch one pull request;
number, repo and user are taken from the shared option bag. -/
def getPullRequest (gh : Github) (o : Options) : Except ApiErr Pull :=
  gh.getPull o.user o.repo o.number

-- ---------------------------------------------------------------------------
-- Complexity annotation and the client-side sort
-- ---------------------------------------------------------------------------

/-- `addComplexityParamToPulls_` (pull-request.js:206-234): for each listed
pull in order, overwrite `options.number` with that pull's number, re-fetch
the detail record through `getPullRequest_`, and attach the computed
complexity; the series stops at the first error.  The returned `Options`
value is the option bag after the mutations. -/
def addComplexityParamToPulls (gh : Github) : Options → List Pull → Options × Except ApiErr (List Pull)
  | o, [] => (o, Except.ok [])
  | o, pull :: rest =>
    let o2 := { o with number := some (JSVal.num pull.number) }
    match getPullRequest gh o2 with
    | Except.error e => (o2, Except.error e)
    | Except.ok pull2 =>
      let metrics : Metrics :=
        { additions := pull2.additions, changedFiles := pull2.changed_files,
          comments := pull2.comments, deletions := pull2.deletions,
          reviewComments := pull2.review_comments }
      let scored := { pull with complexity := some (calculateComplexity metrics) }
      match addComplexityParamToPulls gh o2 rest with
      | (o3, Except.ok res) => (o3, Except.ok (scored :: res))
      | (o3, Except.error e) => (o3, Except.error e)

/-- JavaScript `<` on the optional complexity field: any comparison against
`undefined` is false. -/
def jsLtOpt : Option Nat → Option Nat → Bool
  | some x, some y => decide (x < y)
  | _, _ => false

/-- JavaScript `>` on the optional complexity field. -/
def jsGtOpt (a b : Option Nat) : Bool := jsLtOpt b a

/-- The sort comparator of `sortPullsByComplexity_` (pull-request.js:743-751)
orders `a` no later than `b` iff it does not return `+1`, i.e. iff
`a.complexity < b.complexity` is false. -/
def pullLe (a b : Pull) : Bool := !jsLtOpt a.complexity b.complexity

/-- Insert `a` in front of the first element it need not follow; the
earlier-listed element wins ties, matching the stability of
`Array.prototype.sort`. -/
def orderedInsertPull (a : Pull) : List Pull → List Pull
  | [] => [a]
  | b :: l => if pullLe a b then a :: b :: l else b :: orderedInsertPull a l

/-- Stable sort by the comparator of `sortPullsByComplexity_`: for the
consistent comparators reachable here (every complexity computed), the
stable sorted result is unique, so insertion sort models
`Array.prototype.sort`. -/
def insertionSortPulls : List Pull → List Pull
  | [] => []
  | a :: l => orderedInsertPull a (insertionSortPulls l)

/-- `sortPullsByComplexity_` (pull-request.js:739-758): stable-sort
descending by complexity, then reverse the whole sequence when the
requested direction is ascending. -/
def sortPullsByComplexity (o : Options) (data : List Pull) : List Pull :=
  let sorted := insertionSortPulls data
  if o.direction == some DIRECTION_ASC then sorted.reverse else sorted

-- ---------------------------------------------------------------------------
-- The lister
-- ---------------------------------------------------------------------------

/-- `filterPullsSentByMe_` (pull-request.js:356-367). -/
def filterPullsSentByMe (o : Options) (pulls : List Pull) : List Pull :=
  pulls.filter (fun pull => o.loggedUser == pull.login)

/-- Append `pull` to the group of `branch`, creating the group at the end on
first sight (JavaScript object keys preserve insertion order). -/
def insertGrouped (branch : Str) (pull : Pull) : List (Str × List Pull) → List (Str × List Pull)
  | [] => [(branch, [pull])]
  | (b, ps) :: rest =>
    if b == branch then (b, ps ++ [pull]) :: rest
    else (b, ps) :: insertGrouped branch pull rest

/-- One entry of the rendered listing: a base branch with its pull requests
and their count. -/
structure BranchGroup where
  name : Str
  pulls : List Pull
  total : Nat
  deriving DecidableEq

/-- `getPullsTemplateJson_` (pull-request.js:433-463): group the pulls by
base branch in first-seen order, keeping a pull only when no branch filter
is set or its base branch equals the filter. -/
def getPullsTemplateJson (o : Options) (pulls : List Pull) : List BranchGroup :=
  let branches := pulls.foldl (fun acc pull =>
    if !jsTruthyStr o.branch || o.branch == some pull.base.ref
    then insertGrouped pull.base.ref pull acc else acc) []
  branches.map (fun bp => { name := bp.fst, pulls := bp.snd, total := bp.snd.length })

/-- The `getAll` payload built by `list` (pull-request.js:540-552): when the
requested sort is `complexity`, the sort key sent to the remote is
substituted with `created`. -/
def listPayload (o : Options) (user repo : Str) : GetAllPayload :=
  let sort := if o.sort == some SORT_COMPLEXITY then some SORT_CREATED else o.sort
  { direction := o.direction, repo := repo, sort := sort, state := o.state, user := user }

/-- The first `list` operation (pull-request.js:554-576): fetch the pulls,
keep only the invoking user's when `--me` was given; a 404 is downgraded to
a warning and an empty result, every other error aborts. -/
def listFetchPulls (gh : Github) (o : Options) (user repo : Str) : Except ApiErr (List Pull) :=
  match gh.getAll (listPayload o user repo) with
  | Except.ok data => Except.ok (if o.me then filterPullsSentByMe o data else data)
  | Except.error e => if e.code == 404 then Except.ok [] else Except.error e

/-- The second `list` operation (pull-request.js:578-590): when complexity
sort was requested, annotate every pull with its score and sort
client-side. -/
def listComplexityStage (gh : Github) (o : Options) (pulls : List Pull) :
    Options × Except ApiErr (List Pull) :=
  if o.sort == some SORT_COMPLEXITY then
    match addComplexityParamToPulls gh o pulls with
    | (o2, Except.ok data) => (o2, Except.ok (sortPullsByComplexity o2 data))
    | (o2, Except.error e) => (o2, Except.error e)
  else (o, Except.ok pulls)

/-- The third `list` operation (pull-request.js:592-615): attach the
combined CI status of each pull's head commit, in list order, aborting at
the first error. -/
def attachCombinedStatuses (gh : Github) (user repo : Str) : List Pull → Except ApiErr (List Pull)
  | [] => Except.ok []
  | pull :: rest =>
    match gh.getCombined user repo pull.head.sha with
    | Except.error e => Except.error e
    | Except.ok st =>
      match attachCombinedStatuses gh user repo rest with
      | Except.error e => Except.error e
      | Except.ok res => Except.ok ({ pull with combinedStatus := some st.state } :: res)

/-- `list` (pull-request.js:531-640): the four chained operations; the
returned `Options` value is the option bag after the complexity stage's
mutations. -/
def list (gh : Github) (o : Options) (user repo : Str) :
    Options × Except ApiErr (List BranchGroup) :=
  match listFetchPulls gh o user repo with
  | Except.error e => (o, Except.error e)
  | Except.ok pulls =>
    match listComplexityStage gh o pulls with
    | (o2, Except.error e) => (o2, Except.error e)
    | (o2, Except.ok pulls2) =>
      match attachCombinedStatuses gh user repo pulls2 with
      | Except.error e => (o2, Except.error e)
      | Except.ok pulls3 => (o2, Except.ok (getPullsTemplateJson o2 pulls3))

/-- The repos payload of `listFromAllRepositories`
(pull-request.js:648-659): `org` is only set when `options.org` is
truthy. -/
def reposPayload (o : Options) : ReposPayload :=
  { reqType := ['a', 'l', 'l'], user := o.user, perPage := 100,
    org := if jsTruthyStr o.org then o.org else none }

/-- `listFromAllRepositories` (pull-request.js:642-670): enumerate the
repositories (of the organization when one was given, else of the user) and
run `list` for each; each per-repository outcome is delivered independently
through the same callback.  (The JavaScript `list` calls interleave on the
shared option bag in response order; that timing-dependent sharing is
abstracted by giving each call the incoming bag.) -/
def listFromAllRepositories (gh : Github) (o : Options) :
    Except ApiErr (List (Options × Except ApiErr (List BranchGroup))) :=
  match (if jsTruthyStr o.org then gh.reposGetFromOrg (reposPayload o)
         else gh.reposGetAll (reposPayload o)) with
  | Except.error e => Except.error e
  | Except.ok repositories =>
    Except.ok (repositories.map (fun r => list gh o r.ownerLogin r.name))

-- ---------------------------------------------------------------------------
-- Submit and the integrity reconciler
-- ---------------------------------------------------------------------------

/-- The match condition of `checkPullRequestIntegrity_`
(pull-request.js:313-319): base ref is the local target branch, head ref is
the local current branch, base and head shas coincide, the base belongs to
the submit target `user` and the head to the local `options.user`. -/
def pullMatchesSubmit (o : Options) (user : Str) (data : Pull) : Bool :=
  (some data.base.ref == o.branch) && (some data.head.ref == o.currentBranch) &&
    (data.base.sha == data.head.sha) && (data.base.login == user) &&
    (data.head.login == o.user)

/-- `checkPullRequestIntegrity_` (pull-request.js:298-329): list the open
pulls of the target owner/repository; every matching pull discharges the
original error and becomes the result (the `forEach` keeps the last match);
when the listing itself fails, or nothing matches, the original error is
passed through unchanged. -/
def checkPullRequestIntegrity (originalError : Option ApiErr) (user : Str) (o : Options)
    (gh : Github) : Option ApiErr × Option Pull :=
  match gh.getAll { user := user, repo := o.repo, state := STATE_OPEN } with
  | Except.error _ => (originalError, none)
  | Except.ok pulls =>
    pulls.foldl
      (fun acc data => if pullMatchesSubmit o user data then (none, some data) else acc)
      (originalError, none)

/-- JavaScript string concatenation renders `undefined` as the text
`"undefined"`. -/
def jsStrOrUndefined : Option Str → Str
  | some s => s
  | none => ['u', 'n', 'd', 'e', 'f', 'i', 'n', 'e', 'd']

/-- The creation call of `submit` (pull-request.js:760-797): push and the
title default precede it (the push result is ignored by the source), then
either `createFromIssue` or `create` runs on the assembled payload. -/
def submitCreateResult (gh : Github) (git : Git) (o : Options) (user : Str) :
    Except ApiErr Pull :=
  let pullBranch := if jsTruthyStr o.pullBranch then o.pullBranch else o.currentBranch
  let title := if jsTruthyStr o.title then o.title
    else some (git.getLastCommitMessage pullBranch)
  let payload : CreatePayload :=
    { base := o.branch, head := o.user ++ [':'] ++ jsStrOrUndefined pullBranch,
      repo := o.repo, user := user }
  if jsTruthyNat o.issue then gh.createFromIssue { payload with issue := o.issue }
  else gh.createPull { payload with body := o.description, title := title }

/-- The outcome of `submit` (pull-request.js:799-806): a successful creation
is delivered as-is; on failure the integrity reconciler decides what the
caller sees. -/
def submit (gh : Github) (git : Git) (o : Options) (user : Str) :
    Option ApiErr × Option Pull :=
  match submitCreateResult gh git o user with
  | Except.ok pull => (none, some pull)
  | Except.error err => checkPullRequestIntegrity (some err) user o gh

-- ---------------------------------------------------------------------------
-- The fetch pipeline
-- ---------------------------------------------------------------------------

/-- The fetch modes (`PullRequest.FETCH_TYPE_*`). -/
inductive FetchType where
  | checkout
  | merge
  | rebase
  | silent
  deriving DecidableEq

/-- A local version-control action issued by the fetch pipeline, in issue
order. -/
inductive GitOp where
  | fetchBranch (repoUrl headBranch : Str) (localBranch : Option Str)
  | checkout (branch : Option Str)
  | merge (branch : Option Str)
  | rebase (branch : Option Str)
  deriving DecidableEq

/-- `fetch` (pull-request.js:331-354): retrieve the pull request; on error
deliver it without touching the working tree; on success fetch the remote
head branch into the local pull branch and, unless the mode is silent,
apply exactly the mode's branch operation to it. -/
def fetch (gh : Github) (o : Options) (t : FetchType) : List GitOp × Except ApiErr Pull :=
  match getPullRequest gh o with
  | Except.error e => ([], Except.error e)
  | Except.ok pull =>
    let extra : List GitOp :=
      match t with
      | FetchType.silent => []
      | FetchType.checkout => [GitOp.checkout o.pullBranch]
      | FetchType.merge => [GitOp.merge o.pullBranch]
      | FetchType.rebase => [GitOp.rebase o.pullBranch]
    (GitOp.fetchBranch pull.head.sshUrl pull.head.ref o.pullBranch :: extra, Except.ok pull)

-- ---------------------------------------------------------------------------
-- The top-level dispatcher
-- ---------------------------------------------------------------------------

/-- A dispatched handler of `run`; `openPr` models the `open` handler. -/
inductive CmdAction where
  | browser
  | close
  | comment
  | fetch
  | merge
  | fwd
  | info
  | list
  | openPr
  | submit
  deriving DecidableEq

/-- The outcome of `run`'s resolution phase: either the fatal
`logger.error` abort, or the handlers dispatched in source order. -/
inductive RunOutcome where
  | fatalError
  | dispatch (actions : List CmdAction)
  deriving DecidableEq

/-- `run` (pull-request.js:136-204), up to handler dispatch: resolve the
number from the explicit option or the current branch, derive the pull
branch, fatal-abort when a handler requiring a number has none, and
otherwise dispatch the requested handlers in source order (state, branch
and title defaulting is threaded on to the handlers and does not affect
which handlers run). -/
def run (cfg : Config) (o : Options) : RunOutcome :=
  let number := if jsTruthy o.number then o.number
    else Option.map JSVal.str (getPullRequestNumberFromBranch o.currentBranch cfg.pullBranchNamePfx)
  let pullBranch := getBranchNameFromPullNumber cfg.pullBranchNamePfx number
  if !jsTruthyStr pullBranch && (o.close || o.fetch || o.merge) then RunOutcome.fatalError
  else
    let fwdTarget := if o.fwd == some [] then cfg.defaultPrForwarder else o.fwd
    let submitTarget := if o.submit == some [] then cfg.defaultPrReviewer else o.submit
    RunOutcome.dispatch
      ((if o.browser then [CmdAction.browser] else []) ++
        (if o.close then [CmdAction.close] else []) ++
        (if jsTruthyStr o.comment then [CmdAction.comment] else []) ++
        (if o.fetch then [CmdAction.fetch]
         else if o.merge || o.rebase then [CmdAction.merge] else []) ++
        (if jsTruthyStr fwdTarget then [CmdAction.fwd] else []) ++
        (if o.info then [CmdAction.info] else []) ++
        (if o.list then [CmdAction.list] else []) ++
        (if o.openFlag then [CmdAction.openPr] else []) ++
        (if jsTruthyStr submitTarget then [CmdAction.submit] else []))

-- ---------------------------------------------------------------------------
-- Concrete fixtures used by the witnesses
-- ---------------------------------------------------------------------------

/-- A pull request matching the submit attempt of `oSubmitW` against target
owner `X`. -/
def prFixture : Pull :=
  { number := 7, login := ['a'],
    base := { ref := ['f'], sha := ['s'], login := ['X'] },
    head := { ref := ['f'], sha := ['s'], login := ['u'] } }

/-- Option bag of the submit witness. -/
def oSubmitW : Options :=
  { branch := some ['f'], currentBranch := some ['f'], user := ['u'], repo := ['r'] }

/-- Remote oracle of the submit witness: creation fails with 422, the open
listing returns exactly the matching pull. -/
def ghSubmitW : Github :=
  { getAll := fun _ => Except.ok [prFixture],
    getPull := fun _ _ _ => Except.error ⟨500⟩,
    getCombined := fun _ _ _ => Except.ok ⟨[]⟩,
    reposGetAll := fun _ => Except.ok [],
    reposGetFromOrg := fun _ => Except.ok [],
    createPull := fun _ => Except.error ⟨422⟩,
    createFromIssue := fun _ => Except.error ⟨422⟩ }

/-- Version-control oracle of the witnesses. -/
def gitW : Git := { getLastCommitMessage := fun _ => ['m'] }

/-- Remote oracle of the listing witness: pull listing of repository `r1`
fails with 404, everything else is empty. -/
def ghListW : Github :=
  { getAll := fun p => if p.repo == ['r', '1'] then Except.error ⟨404⟩ else Except.ok [],
    getPull := fun _ _ _ => Except.error ⟨500⟩,
    getCombined := fun _ _ _ => Except.ok ⟨[]⟩,
    reposGetAll := fun _ => Except.ok [⟨['u'], ['r', '1']⟩, ⟨['u'], ['r', '2']⟩],
    reposGetFromOrg := fun _ => Except.ok [],
    createPull := fun _ => Except.error ⟨1⟩,
    createFromIssue := fun _ => Except.error ⟨1⟩ }

/-- Option bag of the listing witness. -/
def oListW : Options := { user := ['u'], repo := ['r'], state := ['o', 'p', 'e', 'n'] }

/-- Remote oracle of the complexity witnesses: every detail re-fetch
succeeds with the spec's example metrics. -/
def ghComplexW : Github :=
  { getAll := fun _ => Except.ok [],
    getPull := fun _ _ _ => Except.ok
      { number := 0, additions := 10, changed_files := 2, comments := 1,
        deletions := 3, review_comments := 4 },
    getCombined := fun _ _ _ => Except.ok ⟨[]⟩,
    reposGetAll := fun _ => Except.ok [],
    reposGetFromOrg := fun _ => Except.ok [],
    createPull := fun _ => Except.error ⟨1⟩,
    createFromIssue := fun _ => Except.error ⟨1⟩ }

/-- First listed pull of the complexity witness. -/
def pW1 : Pull := { number := 5 }

/-- Second (and last) listed pull of the complexity witness. -/
def pW2 : Pull := { number := 7 }

/-- Option bag of the complexity witness. -/
def oComplexW : Options := { repo := ['r'], user := ['u'] }

/-- A pull with complexity 10. -/
def pTen : Pull := { number := 1, complexity := some 10 }

/-- A pull with complexity 50. -/
def pFifty : Pull := { number := 2, complexity := some 50 }

/-- A descending-direction option bag. -/
def oDescW : Options := { direction := some DIRECTION_DESC }

/-- An ascending-direction option bag. -/
def oAscW : Options := { direction := some DIRECTION_ASC }

/-- Remote oracle of the fetch witness, success case. -/
def ghFetchOkW : Github :=
  { getAll := fun _ => Except.ok [],
    getPull := fun _ _ _ => Except.ok
      { number := 3, head := { ref := ['h'], sha := ['s'], login := ['u'], sshUrl := ['g'] } },
    getCombined := fun _ _ _ => Except.ok ⟨[]⟩,
    reposGetAll := fun _ => Except.ok [],
    reposGetFromOrg := fun _ => Except.ok [],
    createPull := fun _ => Except.error ⟨1⟩,
    createFromIssue := fun _ => Except.error ⟨1⟩ }

/-- Remote oracle of the fetch witness, retrieval-failure case. -/
def ghFetchErrW : Github :=
  { getAll := fun _ => Except.ok [],
    getPull := fun _ _ _ => Except.error ⟨404⟩,
    getCombined := fun _ _ _ => Except.ok ⟨[]⟩,
    reposGetAll := fun _ => Except.ok [],
    reposGetFromOrg := fun _ => Except.ok [],
    createPull := fun _ => Except.error ⟨1⟩,
    createFromIssue := fun _ => Except.error ⟨1⟩ }

/-- The pull returned by `ghFetchOkW`. -/
def prFetchW : Pull :=
  { number := 3, head := { ref := ['h'], sha := ['s'], login := ['u'], sshUrl := ['g'] } }

/-- Option bag of the fetch witness. -/
def oFetchW : Options := { pullBranch := some ['p', 'r', '-', '3'], user := ['u'], repo := ['r'] }

/-- Configuration of the run witness. -/
def cfgW : Config := { pullBranchNamePfx := ['p', 'r', '-'] }

/-- Option bag of the run witness: `--close` requested, no number, and a
current branch that does not decode. -/
def oRunW : Options := { close := true, currentBranch := some ['m', 'a', 'i', 'n'] }

-- ---------------------------------------------------------------------------
-- Supporting lemmas for the branch-name codec
-- ---------------------------------------------------------------------------

theorem isEmpty_false_of_ne_nil (b : Str) (hb : b ≠ []) : b.isEmpty = false := by
  cases b with
  | nil => exact absurd rfl hb
  | cons c cs => rfl

theorem isPrefixOf_append_self (p t : Str) : p.isPrefixOf (p ++ t) = true := by
  induction p with
  | nil => simp
  | cons c cs ih => simp [List.isPrefixOf, ih]

theorem replaceFirstL_isPrefixOf (p b : Str) (h : p.isPrefixOf b = true) :
    replaceFirstL p b = List.drop p.length b := by
  cases b with
  | nil => simp [replaceFirstL]
  | cons c cs => simp [replaceFirstL, h]

theorem natToCharsGo_ne_nil (fuel : Nat) :
    ∀ (n : Nat) (acc : List Char), acc ≠ [] → natToCharsGo fuel n acc ≠ [] := by
  induction fuel with
  | zero => intro n acc h; simp only [natToCharsGo]; exact h
  | succ f ih =>
    intro n acc h
    by_cases hn : n == 0
    · simpa [natToCharsGo, hn] using h
    · simpa [natToCharsGo, hn] using ih (n / 10) _ (by simp)

theorem natToChars_ne_nil (n : Nat) : natToChars n ≠ [] := by
  unfold natToChars
  by_cases h : n == 0
  · simp [h]
  · rw [if_neg (by simpa using h)]
    cases n with
    | zero => simp at h
    | succ m =>
      show natToCharsGo (m + 1) (m + 1) [] ≠ []
      rw [show natToCharsGo (m + 1) (m + 1) [] =
        natToCharsGo m ((m + 1) / 10) [Char.ofNat (48 + (m + 1) % 10)] from by
          simp [natToCharsGo]]
      exact natToCharsGo_ne_nil m _ _ (by simp)

-- ---------------------------------------------------------------------------
-- Claims C2 and C3: the branch-identifier codec
-- ---------------------------------------------------------------------------

/-- Claim C2, counterexample: at `n = 0` (with prefix `"pr-"`) the round
trip does not return 0: `getBranchNameFromPullNumber` treats 0 as falsy and
returns `undefined`, and decoding `undefined` yields `undefined`, which is
not loosely equal to 0 (in particular it is not the decimal string of 0). -/
theorem codec_roundtrip_fails_at_zero :
    getPullRequestNumberFromBranch
        (getBranchNameFromPullNumber ['p', 'r', '-'] (some (JSVal.num 0)))
        ['p', 'r', '-'] = none
      ∧ (none : Option Str) ≠ some (natToChars 0) := by
  exact ⟨rfl, by decide⟩

/-- Claim C2 (amended): for every positive integer `n` and every prefix `p`,
decoding the branch name produced by encoding `n` with prefix `p` returns
the decimal representation of `n` (the string that is loosely equal to
`n`); at `n = 0` the encoder returns `undefined` instead. -/
theorem codec_roundtrip_positive (n : Nat) (p : Str) (h : n ≠ 0) :
    getPullRequestNumberFromBranch
        (getBranchNameFromPullNumber p (some (JSVal.num n))) p
      = some (natToChars n) := by
  have htr : (JSVal.num n).truthy = true := by simp [JSVal.truthy, h]
  rw [show getBranchNameFromPullNumber p (some (JSVal.num n))
      = some (p ++ (JSVal.num n).toStr) from by
    simp [getBranchNameFromPullNumber, htr]]
  have hb : (p ++ (JSVal.num n).toStr).isEmpty = false := by
    apply isEmpty_false_of_ne_nil
    intro hzero
    exact natToChars_ne_nil n (List.append_eq_nil.mp hzero).2
  simp only [getPullRequestNumberFromBranch]
  rw [if_pos (by simp [hb, isPrefixOf_append_self])]
  rw [replaceFirstL_isPrefixOf _ _ (isPrefixOf_append_self p _)]
  simp [JSVal.toStr]

/-- Claim C2, witness: the round trip at `n = 42` with prefix `"pr-"`. -/
theorem codec_roundtrip_positive_witness :
    getPullRequestNumberFromBranch
        (getBranchNameFromPullNumber ['p', 'r', '-'] (some (JSVal.num 42)))
        ['p', 'r', '-']
      = some (natToChars 42) :=
  codec_roundtrip_positive 42 ['p', 'r', '-'] (by decide)

/-- Claim C3, counterexample: encoding is not unconditional — at the falsy
number 0 the encoder returns `undefined`, not `prefix + number`. -/
theorem encode_not_unconditional :
    getBranchNameFromPullNumber ['p', 'r', '-'] (some (JSVal.num 0)) = none
      ∧ getBranchNameFromPullNumber ['p', 'r', '-'] (some (JSVal.num 0))
          ≠ some (['p', 'r', '-'] ++ JSVal.toStr (JSVal.num 0)) := by
  exact ⟨rfl, by decide⟩

/-- Claim C3 (amended): `encode` returns `prefix + number` for every truthy
number and `undefined` for a falsy (zero / empty / undefined) one; `decode`
returns `undefined` unless `branchName` is truthy (non-empty) and starts
with the prefix, and otherwise returns the branch name with the leading
prefix stripped, kept as text. -/
theorem codec_pointwise_spec :
    (∀ (p : Str) (v : JSVal), v.truthy = true →
        getBranchNameFromPullNumber p (some v) = some (p ++ v.toStr))
      ∧ (∀ (p : Str) (v : JSVal), v.truthy = false →
        getBranchNameFromPullNumber p (some v) = none)
      ∧ (∀ p : Str, getBranchNameFromPullNumber p none = none)
      ∧ (∀ (p b : Str), b ≠ [] → p.isPrefixOf b = true →
        getPullRequestNumberFromBranch (some b) p = some (List.drop p.length b))
      ∧ (∀ (p b : Str), b = [] ∨ p.isPrefixOf b = false →
        getPullRequestNumberFromBranch (some b) p = none)
      ∧ (∀ p : Str, getPullRequestNumberFromBranch none p = none) := by
  refine ⟨?_, ?_, ?_, ?_, ?_, ?_⟩
  · intro p v hv
    simp [getBranchNameFromPullNumber, hv]
  · intro p v hv
    simp [getBranchNameFromPullNumber, hv]
  · intro p; rfl
  · intro p b hb hpre
    simp only [getPullRequestNumberFromBranch]
    rw [if_pos (by simp [hpre, isEmpty_false_of_ne_nil b hb])]
    rw [replaceFirstL_isPrefixOf _ _ hpre]
  · intro p b hb
    simp only [getPullRequestNumberFromBranch]
    rcases hb with rfl | hb
    · rw [if_neg (by simp)]
    · rw [if_neg (by simp [hb])]
  · intro p; rfl

/-- Claim C3, witness: a truthy encode and a prefixed decode at concrete
inputs. -/
theorem codec_pointwise_spec_witness :
    getBranchNameFromPullNumber ['p'] (some (JSVal.str ['x']))
        = some (['p'] ++ JSVal.toStr (JSVal.str ['x']))
      ∧ getPullRequestNumberFromBranch (some ['p', 'q']) ['p']
        = some (List.drop (List.length ['p']) ['p', 'q']) :=
  ⟨codec_pointwise_spec.1 ['p'] (JSVal.str ['x']) (by decide),
   codec_pointwise_spec.2.2.2.1 ['p'] ['p', 'q'] (by decide) (by decide)⟩

-- ---------------------------------------------------------------------------
-- Claim C4: the complexity scorer
-- ---------------------------------------------------------------------------

/-- Claim C4: the complexity score is the fixed weighted sum
`2*additions + 2*changedFiles + 2*comments + 2*deletions + 1*reviewComments`
and is strictly increasing when any single metric increases while the
others are held fixed. -/
theorem calculateComplexity_spec :
    (∀ m : Metrics, calculateComplexity m =
        2 * m.additions + 2 * m.changedFiles + 2 * m.comments + 2 * m.deletions +
          1 * m.reviewComments)
      ∧ (∀ (m : Metrics) (d : Nat), 0 < d →
        calculateComplexity { m with additions := m.additions + d } > calculateComplexity m)
      ∧ (∀ (m : Metrics) (d : Nat), 0 < d →
        calculateComplexity { m with changedFiles := m.changedFiles + d } > calculateComplexity m)
      ∧ (∀ (m : Metrics) (d : Nat), 0 < d →
        calculateComplexity { m with comments := m.comments + d } > calculateComplexity m)
      ∧ (∀ (m : Metrics) (d : Nat), 0 < d →
        calculateComplexity { m with deletions := m.deletions + d } > calculateComplexity m)
      ∧ (∀ (m : Metrics) (d : Nat), 0 < d →
        calculateComplexity { m with reviewComments := m.reviewComments + d } >
          calculateComplexity m) := by
  refine ⟨fun m => by simp only [calculateComplexity]; omega, ?_, ?_, ?_, ?_, ?_⟩ <;>
    · intro m d hd
      simp only [calculateComplexity]
      omega

/-- Claim C4, witness: the spec's example metrics score 36, and bumping one
metric strictly increases the score. -/
theorem calculateComplexity_spec_witness :
    calculateComplexity ⟨10, 2, 1, 3, 4⟩ = 2 * 10 + 2 * 2 + 2 * 1 + 2 * 3 + 1 * 4
      ∧ calculateComplexity ⟨10 + 1, 2, 1, 3, 4⟩ > calculateComplexity ⟨10, 2, 1, 3, 4⟩ :=
  ⟨calculateComplexity_spec.1 ⟨10, 2, 1, 3, 4⟩,
   calculateComplexity_spec.2.1 ⟨10, 2, 1, 3, 4⟩ 1 (by decide)⟩

-- ---------------------------------------------------------------------------
-- Supporting lemmas for the last-match fold of the integrity reconciler
-- ---------------------------------------------------------------------------

theorem foldl_if_no_match {α β : Type} (P : α → Bool) (g : α → β) :
    ∀ (l : List α) (init : β), (∀ x ∈ l, P x = false) →
      l.foldl (fun acc d => if P d then g d else acc) init = init := by
  intro l
  induction l with
  | nil => intro init _; rfl
  | cons a l ih =>
    intro init h
    have ha := h a (by simp)
    rw [List.foldl_cons]
    rw [show (if P a then g a else init) = init from by simp [ha]]
    exact ih init (fun x hx => h x (by simp [hx]))

theorem foldl_if_unique_match {α β : Type} (P : α → Bool) (g : α → β) :
    ∀ (l : List α) (init : β) (a : α), l.filter P = [a] →
      l.foldl (fun acc d => if P d then g d else acc) init = g a := by
  intro l
  induction l with
  | nil => intro init a h; simp at h
  | cons b l ih =>
    intro init a h
    by_cases hb : P b
    · rw [List.filter_cons_of_pos hb] at h
      have hba : b = a := (List.cons_eq_cons.mp h).1
      have hnil : l.filter P = [] := (List.cons_eq_cons.mp h).2
      subst hba
      rw [List.foldl_cons]
      rw [show (if P b then g b else init) = g b from by simp [hb]]
      exact foldl_if_no_match P g l (g b)
        (fun x hx => by simpa using List.filter_eq_nil_iff.mp hnil x hx)
    · rw [List.filter_cons_of_neg (by simpa using hb)] at h
      rw [List.foldl_cons]
      rw [show (if P b then g b else init) = init from by simp [hb]]
      exact ih init a h

-- ---------------------------------------------------------------------------
-- Claim C1: the integrity reconciler
-- ---------------------------------------------------------------------------

/-- Claim C1: when the creation call of submit fails and the open-pull
listing of the target owner/repository succeeds, a unique pull matching the
reconciler's five conditions discharges the original error and becomes the
submit result, and with no matching pull the original error is re-raised
unchanged. -/
theorem submit_reconciles_existing_pull (gh : Github) (git : Git) (o : Options) (user : Str)
    (e : ApiErr) (pulls : List Pull)
    (hcreate : submitCreateResult gh git o user = Except.error e)
    (hall : gh.getAll { user := user, repo := o.repo, state := STATE_OPEN } = Except.ok pulls) :
    (∀ pr : Pull, pulls.filter (pullMatchesSubmit o user) = [pr] →
        submit gh git o user = (none, some pr))
      ∧ (pulls.filter (pullMatchesSubmit o user) = [] →
        submit gh git o user = (some e, none)) := by
  constructor
  · intro pr hone
    unfold submit
    rw [hcreate]
    unfold checkPullRequestIntegrity
    rw [hall]
    exact foldl_if_unique_match (pullMatchesSubmit o user) _ pulls _ pr hone
  · intro hnone
    unfold submit
    rw [hcreate]
    unfold checkPullRequestIntegrity
    rw [hall]
    exact foldl_if_no_match (pullMatchesSubmit o user) _ pulls _
      (fun x hx => by simpa using List.filter_eq_nil_iff.mp hnone x hx)

/-- Claim C1, witness: a failed creation recovered through the unique
matching open pull request. -/
theorem submit_reconciles_existing_pull_witness :
    submit ghSubmitW gitW oSubmitW ['X'] = (none, some prFixture) :=
  (submit_reconciles_existing_pull ghSubmitW gitW oSubmitW ['X'] ⟨422⟩ [prFixture]
    rfl rfl).1 prFixture (by decide)

-- ---------------------------------------------------------------------------
-- Claim C6: handlers requiring a number fatal-abort before dispatch
-- ---------------------------------------------------------------------------

/-- Claim C6: when no explicit number was given and the current branch does
not decode to one, requesting close, fetch or merge makes `run` fatal-abort
before any handler is dispatched (the outcome carries no actions, so no
remote or local step can have been taken). -/
theorem run_aborts_without_number (cfg : Config) (o : Options)
    (hnum : o.number = none)
    (hdec : getPullRequestNumberFromBranch o.currentBranch cfg.pullBranchNamePfx = none)
    (hflag : o.close = true ∨ o.fetch = true ∨ o.merge = true) :
    run cfg o = RunOutcome.fatalError := by
  unfold run
  rw [hnum, hdec]
  rcases hflag with h | h | h <;>
    simp [jsTruthy, jsTruthyStr, getBranchNameFromPullNumber, h]

/-- Claim C6, witness: `--close` with no number and a non-decoding current
branch aborts. -/
theorem run_aborts_without_number_witness : run cfgW oRunW = RunOutcome.fatalError :=
  run_aborts_without_number cfgW oRunW rfl (by decide) (Or.inl rfl)

-- ---------------------------------------------------------------------------
-- Claim C9: the fetch pipeline
-- ---------------------------------------------------------------------------

/-- Claim C9: when retrieving the pull request fails, the fetch pipeline
reports the failure having issued no local operation; when it succeeds,
the head branch is fetched into the local pull branch and, unless the mode
is silent, exactly the requested one of checkout, merge or rebase is then
applied to that branch. -/
theorem fetch_pipeline_spec (gh : Github) (o : Options) :
    (∀ (e : ApiErr) (t : FetchType), getPullRequest gh o = Except.error e →
        fetch gh o t = ([], Except.error e))
      ∧ (∀ pull : Pull, getPullRequest gh o = Except.ok pull →
        fetch gh o FetchType.silent
            = ([GitOp.fetchBranch pull.head.sshUrl pull.head.ref o.pullBranch],
               Except.ok pull)
          ∧ fetch gh o FetchType.checkout
            = ([GitOp.fetchBranch pull.head.sshUrl pull.head.ref o.pullBranch,
                GitOp.checkout o.pullBranch], Except.ok pull)
          ∧ fetch gh o FetchType.merge
            = ([GitOp.fetchBranch pull.head.sshUrl pull.head.ref o.pullBranch,
                GitOp.merge o.pullBranch], Except.ok pull)
          ∧ fetch gh o FetchType.rebase
            = ([GitOp.fetchBranch pull.head.sshUrl pull.head.ref o.pullBranch,
                GitOp.rebase o.pullBranch], Except.ok pull)) := by
  constructor
  · intro e t h
    simp [fetch, h]
  · intro pull h
    refine ⟨?_, ?_, ?_, ?_⟩ <;> simp [fetch, h]

/-- Claim C9, witness: a failing retrieval issues no git operation, and a
successful merge-mode fetch issues exactly the fetch and the merge. -/
theorem fetch_pipeline_spec_witness :
    fetch ghFetchErrW oFetchW FetchType.checkout = ([], Except.error ⟨404⟩)
      ∧ fetch ghFetchOkW oFetchW FetchType.merge
        = ([GitOp.fetchBranch ['g'] ['h'] (some ['p', 'r', '-', '3']),
            GitOp.merge (some ['p', 'r', '-', '3'])], Except.ok prFetchW) :=
  ⟨(fetch_pipeline_spec ghFetchErrW oFetchW).1 ⟨404⟩ FetchType.checkout rfl,
   ((fetch_pipeline_spec ghFetchOkW oFetchW).2 prFetchW rfl).2.2.1⟩

-- ---------------------------------------------------------------------------
-- Claim C7: not-found listing failures are non-fatal and per-repository
-- ---------------------------------------------------------------------------

/-- Claim C7: a 404 on the remote pull listing makes `list` produce an
empty result (a warning, not a failure), and when listing from all
repositories every enumerated repository gets its own independent `list`
outcome, so one repository's not-found failure cannot suppress the
others. -/
theorem list_notfound_nonfatal :
    (∀ (gh : Github) (o : Options) (user repo : Str),
        gh.getAll (listPayload o user repo) = Except.error ⟨404⟩ →
        list gh o user repo = (o, Except.ok []))
      ∧ (∀ (gh : Github) (o : Options) (repos : List Repo),
        jsTruthyStr o.org = false →
        gh.reposGetAll (reposPayload o) = Except.ok repos →
        listFromAllRepositories gh o
          = Except.ok (repos.map (fun r => list gh o r.ownerLogin r.name)))
      ∧ (∀ (gh : Github) (o : Options) (repos : List Repo),
        jsTruthyStr o.org = true →
        gh.reposGetFromOrg (reposPayload o) = Except.ok repos →
        listFromAllRepositories gh o
          = Except.ok (repos.map (fun r => list gh o r.ownerLogin r.name))) := by
  refine ⟨?_, ?_, ?_⟩
  · intro gh o user repo h
    unfold list listFetchPulls
    rw [h]
    simp only [show ((⟨404⟩ : ApiErr).code == 404) = true from rfl, if_true]
    unfold listComplexityStage
    by_cases hs : (o.sort == some SORT_COMPLEXITY) = true
    · rw [if_pos hs]
      rw [show addComplexityParamToPulls gh o [] = (o, Except.ok []) from rfl]
      simp [sortPullsByComplexity, insertionSortPulls,
        attachCombinedStatuses, getPullsTemplateJson]
    · rw [if_neg hs]
      simp [attachCombinedStatuses, getPullsTemplateJson]
  · intro gh o repos horg h
    unfold listFromAllRepositories
    rw [if_neg (by simp [horg]), h]
  · intro gh o repos horg h
    unfold listFromAllRepositories
    rw [if_pos horg, h]

/-- Claim C7, witness: repository `r1` 404s and yields the empty listing,
while the all-repositories run still delivers one outcome per enumerated
repository. -/
theorem list_notfound_nonfatal_witness :
    list ghListW oListW ['u'] ['r', '1'] = (oListW, Except.ok [])
      ∧ listFromAllRepositories ghListW oListW
        = Except.ok [list ghListW oListW ['u'] ['r', '1'],
                     list ghListW oListW ['u'] ['r', '2']] :=
  ⟨list_notfound_nonfatal.1 ghListW oListW ['u'] ['r', '1'] rfl,
   list_notfound_nonfatal.2.1 ghListW oListW
     [⟨['u'], ['r', '1']⟩, ⟨['u'], ['r', '2']⟩] rfl rfl⟩

-- ---------------------------------------------------------------------------
-- Claim C8: the remote sort-key substitution for complexity
-- ---------------------------------------------------------------------------

/-- Claim C8: the sort key sent to the remote is `created` whenever the
complexity sort was requested and the requested key unchanged otherwise,
and with the complexity sort the ordering delivered by the listing is the
client-side `sortPullsByComplexity` of the annotated pulls. -/
theorem list_complexity_sort_substitution :
    (∀ (o : Options) (user repo : Str), o.sort = some SORT_COMPLEXITY →
        (listPayload o user repo).sort = some SORT_CREATED)
      ∧ (∀ (o : Options) (user repo : Str), o.sort ≠ some SORT_COMPLEXITY →
        (listPayload o user repo).sort = o.sort)
      ∧ (∀ (gh : Github) (o : Options) (pulls : List Pull) (o2 : Options)
          (scored : List Pull), o.sort = some SORT_COMPLEXITY →
        addComplexityParamToPulls gh o pulls = (o2, Except.ok scored) →
        listComplexityStage gh o pulls = (o2, Except.ok (sortPullsByComplexity o2 scored))) := by
  refine ⟨?_, ?_, ?_⟩
  · intro o user repo h
    simp [listPayload, h]
  · intro o user repo h
    simp [listPayload, h]
  · intro gh o pulls o2 scored h hadd
    unfold listComplexityStage
    rw [if_pos (by simp [h]), hadd]

/-- Claim C8, witness: with the complexity sort requested the remote
payload carries `created`, and the complexity stage delivers the
client-side sort of the annotated pulls. -/
theorem list_complexity_sort_substitution_witness :
    (listPayload { oListW with sort := some SORT_COMPLEXITY } ['u'] ['r']).sort
        = some SORT_CREATED
      ∧ listComplexityStage ghComplexW { oListW with sort := some SORT_COMPLEXITY } []
        = ({ oListW with sort := some SORT_COMPLEXITY },
           Except.ok (sortPullsByComplexity { oListW with sort := some SORT_COMPLEXITY } [])) :=
  ⟨list_complexity_sort_substitution.1 { oListW with sort := some SORT_COMPLEXITY } ['u'] ['r'] rfl,
   list_complexity_sort_substitution.2.2 ghComplexW
     { oListW with sort := some SORT_COMPLEXITY } [] _ [] rfl rfl⟩

-- ---------------------------------------------------------------------------
-- Claim C10: the complexity re-fetch overwrites the shared number slot
-- ---------------------------------------------------------------------------

theorem addComplexity_cons_err (gh : Github) (o : Options) (p : Pull) (rest : List Pull)
    (e : ApiErr)
    (hg : getPullRequest gh { o with number := some (JSVal.num p.number) } = Except.error e) :
    addComplexityParamToPulls gh o (p :: rest)
      = ({ o with number := some (JSVal.num p.number) }, Except.error e) := by
  simp [addComplexityParamToPulls, hg]

theorem addComplexity_cons_ok (gh : Github) (o : Options) (p : Pull) (rest : List Pull)
    (pull2 : Pull)
    (hg : getPullRequest gh { o with number := some (JSVal.num p.number) } = Except.ok pull2) :
    addComplexityParamToPulls gh o (p :: rest)
      = (match addComplexityParamToPulls gh { o with number := some (JSVal.num p.number) } rest with
         | (o3, Except.ok res) => (o3, Except.ok
             ({ p with complexity := some (calculateComplexity
                 { additions := pull2.additions, changedFiles := pull2.changed_files,
                   comments := pull2.comments, deletions := pull2.deletions,
                   reviewComments := pull2.review_comments }) } :: res))
         | (o3, Except.error e) => (o3, Except.error e)) := by
  simp [addComplexityParamToPulls, hg]

/-- Claim C10: when the per-pull detail re-fetch completes successfully over
a non-empty listing, the option bag afterwards is the incoming bag with
exactly its `number` slot overwritten by the last listed pull's number. -/
theorem addComplexity_mutates_number (gh : Github) :
    ∀ (pulls : List Pull) (o : Options) (lastP : Pull),
      pulls.getLast? = some lastP →
      (∃ scored, (addComplexityParamToPulls gh o pulls).snd = Except.ok scored) →
      (addComplexityParamToPulls gh o pulls).fst
        = { o with number := some (JSVal.num lastP.number) } := by
  intro pulls
  induction pulls with
  | nil => intro o lastP hlast _; simp at hlast
  | cons p rest ih =>
    intro o lastP hlast hok
    obtain ⟨scored, hs⟩ := hok
    cases hg : getPullRequest gh { o with number := some (JSVal.num p.number) } with
    | error e =>
      rw [addComplexity_cons_err gh o p rest e hg] at hs
      simp at hs
    | ok d =>
      cases rest with
      | nil =>
        have hp : lastP = p := by simpa using hlast.symm
        subst hp
        rw [addComplexity_cons_ok gh o lastP [] d hg]
        rw [show addComplexityParamToPulls gh
          { o with number := some (JSVal.num lastP.number) } [] =
          ({ o with number := some (JSVal.num lastP.number) }, Except.ok []) from rfl]
      | cons q rs =>
        have hlast2 : (q :: rs).getLast? = some lastP := by
          simpa [List.getLast?_cons_cons] using hlast
        rw [addComplexity_cons_ok gh o p (q :: rs) d hg] at hs ⊢
        cases hrec : addComplexityParamToPulls gh
            { o with number := some (JSVal.num p.number) } (q :: rs) with
        | mk o3 r3 =>
          rw [hrec] at hs
          cases r3 with
          | error e => simp at hs
          | ok res =>
            have h3 := ih { o with number := some (JSVal.num p.number) } lastP hlast2
              ⟨res, by rw [hrec]⟩
            rw [hrec] at h3
            exact h3

/-- Claim C10, witness: after a successful complexity annotation over two
pulls, the option bag's number slot holds the second pull's number and
nothing else changed. -/
theorem addComplexity_mutates_number_witness :
    (addComplexityParamToPulls ghComplexW oComplexW [pW1, pW2]).fst
      = { oComplexW with number := some (JSVal.num pW2.number) } :=
  addComplexity_mutates_number ghComplexW [pW1, pW2] oComplexW pW2 (by rfl) ⟨_, rfl⟩

-- ---------------------------------------------------------------------------
-- Supporting lemmas for the complexity sort
-- ---------------------------------------------------------------------------

theorem mem_orderedInsertPull (a x : Pull) :
    ∀ l : List Pull, x ∈ orderedInsertPull a l ↔ x = a ∨ x ∈ l := by
  intro l
  induction l with
  | nil => simp [orderedInsertPull]
  | cons b l ih =>
    simp only [orderedInsertPull]
    by_cases h : pullLe a b
    · rw [if_pos h]
      simp [List.mem_cons]
    · rw [if_neg h]
      simp only [List.mem_cons, ih]
      tauto

theorem orderedInsertPull_perm (a : Pull) :
    ∀ l : List Pull, (orderedInsertPull a l).Perm (a :: l) := by
  intro l
  induction l with
  | nil => exact List.Perm.refl _
  | cons b l ih =>
    simp only [orderedInsertPull]
    by_cases h : pullLe a b
    · rw [if_pos h]
    · rw [if_neg h]
      exact (ih.cons b).trans (List.Perm.swap a b l)

theorem insertionSortPulls_perm : ∀ l : List Pull, (insertionSortPulls l).Perm l := by
  intro l
  induction l with
  | nil => exact List.Perm.refl _
  | cons a l ih =>
    exact (orderedInsertPull_perm a (insertionSortPulls l)).trans (ih.cons a)

theorem mem_insertionSortPulls (x : Pull) (l : List Pull) :
    x ∈ insertionSortPulls l ↔ x ∈ l :=
  (insertionSortPulls_perm l).mem_iff

theorem pullLe_total (a b : Pull) : pullLe a b = true ∨ pullLe b a = true := by
  simp only [pullLe, jsLtOpt, Bool.not_eq_true']
  cases a.complexity with
  | none => left; cases b.complexity <;> rfl
  | some x =>
    cases b.complexity with
    | none => left; rfl
    | some y =>
      by_cases h : x < y
      · right; simp; omega
      · left; simp; omega

theorem pullLe_trans_some (a b c : Pull) (x y z : Nat)
    (ha : a.complexity = some x) (hb : b.complexity = some y) (hc : c.complexity = some z)
    (h1 : pullLe a b = true) (h2 : pullLe b c = true) : pullLe a c = true := by
  simp [pullLe, jsLtOpt, ha, hb] at h1
  simp [pullLe, jsLtOpt, hb, hc] at h2
  simp [pullLe, jsLtOpt, ha, hc]
  omega

theorem pairwise_le_orderedInsert (a : Pull) :
    ∀ l : List Pull, (∀ x ∈ a :: l, x.complexity.isSome = true) →
      l.Pairwise (fun u v => pullLe u v = true) →
      (orderedInsertPull a l).Pairwise (fun u v => pullLe u v = true) := by
  intro l
  induction l with
  | nil =>
    intro _ _
    simp [orderedInsertPull]
  | cons b l ih =>
    intro hsome hpw
    rcases List.pairwise_cons.mp hpw with ⟨hbl, hl⟩
    simp only [orderedInsertPull]
    by_cases hab : pullLe a b
    · rw [if_pos hab]
      refine List.pairwise_cons.mpr ⟨?_, hpw⟩
      intro x hx
      rcases List.mem_cons.mp hx with rfl | hx'
      · exact hab
      · obtain ⟨na, hna⟩ := Option.isSome_iff_exists.mp (hsome a (by simp))
        obtain ⟨nb, hnb⟩ := Option.isSome_iff_exists.mp (hsome b (by simp))
        obtain ⟨nx, hnx⟩ := Option.isSome_iff_exists.mp (hsome x (by simp [hx']))
        exact pullLe_trans_some a b x na nb nx hna hnb hnx hab (hbl x hx')
    · rw [if_neg hab]
      have hba : pullLe b a = true :=
        (pullLe_total a b).resolve_left (by simpa using hab)
      refine List.pairwise_cons.mpr ⟨?_, ih ?_ hl⟩
      · intro x hx
        rcases (mem_orderedInsertPull a x l).mp hx with rfl | hx'
        · exact hba
        · exact hbl x hx'
      · intro x hx
        rcases List.mem_cons.mp hx with rfl | hx'
        · exact hsome x (by simp)
        · exact hsome x (by simp [hx'])

theorem pairwise_le_insertionSort :
    ∀ l : List Pull, (∀ x ∈ l, x.complexity.isSome = true) →
      (insertionSortPulls l).Pairwise (fun u v => pullLe u v = true) := by
  intro l
  induction l with
  | nil => intro _; simp [insertionSortPulls]
  | cons a l ih =>
    intro hsome
    apply pairwise_le_orderedInsert
    · intro x hx
      rcases List.mem_cons.mp hx with rfl | hx'
      · exact hsome x (by simp)
      · exact hsome x (by simp [(mem_insertionSortPulls x l).mp hx'])
    · exact ih (fun x hx => hsome x (by simp [hx]))

theorem pairwise_imp_mem {α : Type} {R S : α → α → Prop} :
    ∀ {l : List α}, (∀ a b, a ∈ l → b ∈ l → R a b → S a b) → l.Pairwise R → l.Pairwise S := by
  intro l
  induction l with
  | nil => intro _ _; exact List.Pairwise.nil
  | cons a l ih =>
    intro h hp
    rcases List.pairwise_cons.mp hp with ⟨hal, hl⟩
    refine List.pairwise_cons.mpr ⟨?_, ih ?_ hl⟩
    · intro b hb
      exact h a b (by simp) (by simp [hb]) (hal b hb)
    · intro x y hx hy
      exact h x y (by simp [hx]) (by simp [hy])

theorem sortPulls_desc_eq (o : Options) (data : List Pull)
    (hdir : o.direction = some DIRECTION_DESC) :
    sortPullsByComplexity o data = insertionSortPulls data := by
  unfold sortPullsByComplexity
  rw [hdir]
  rw [show (some DIRECTION_DESC == some DIRECTION_ASC) = false from by decide]
  simp

theorem sortPulls_asc_eq (o : Options) (data : List Pull)
    (hdir : o.direction = some DIRECTION_ASC) :
    sortPullsByComplexity o data = (insertionSortPulls data).reverse := by
  unfold sortPullsByComplexity
  rw [hdir]
  simp

theorem filter_orderedInsert_pos (a : Pull) (c : Nat) (hc : a.complexity = some c) :
    ∀ l : List Pull,
      (orderedInsertPull a l).filter (fun p => p.complexity == some c)
        = a :: l.filter (fun p => p.complexity == some c) := by
  intro l
  induction l with
  | nil => simp [orderedInsertPull, List.filter, hc]
  | cons b l ih =>
    simp only [orderedInsertPull]
    by_cases hab : pullLe a b
    · rw [if_pos hab]
      rw [List.filter_cons, if_pos (by simp [hc])]
    · rw [if_neg hab]
      have hlt : jsLtOpt a.complexity b.complexity = true := by
        simpa [pullLe] using hab
      have hb : (b.complexity == some c) = false := by
        cases hbc : b.complexity with
        | none => simp [jsLtOpt, hc, hbc] at hlt
        | some y =>
          simp [jsLtOpt, hc, hbc] at hlt
          simp [hbc]
          omega
      rw [List.filter_cons, if_neg (by simp [hb]), ih]
      rw [List.filter_cons, if_neg (by simp [hb])]

theorem filter_orderedInsert_neg (a : Pull) (c : Nat)
    (hc : (a.complexity == some c) = false) :
    ∀ l : List Pull,
      (orderedInsertPull a l).filter (fun p => p.complexity == some c)
        = l.filter (fun p => p.complexity == some c) := by
  intro l
  induction l with
  | nil => simp [orderedInsertPull, List.filter, hc]
  | cons b l ih =>
    simp only [orderedInsertPull]
    by_cases hab : pullLe a b
    · rw [if_pos hab]
      rw [List.filter_cons, if_neg (by simp [hc])]
    · rw [if_neg hab]
      rw [List.filter_cons, ih, List.filter_cons]

theorem filter_insertionSort_eq (data : List Pull) (c : Nat) :
    (insertionSortPulls data).filter (fun p => p.complexity == some c)
      = data.filter (fun p => p.complexity == some c) := by
  induction data with
  | nil => rfl
  | cons a l ih =>
    simp only [insertionSortPulls]
    by_cases ha : (a.complexity == some c) = true
    · have hc : a.complexity = some c := by simpa using ha
      rw [filter_orderedInsert_pos a c hc (insertionSortPulls l), ih]
      rw [List.filter_cons, if_pos ha]
    · have hc : (a.complexity == some c) = false := by simpa using ha
      rw [filter_orderedInsert_neg a c hc (insertionSortPulls l), ih]
      rw [List.filter_cons, if_neg (by simp [hc])]

-- ---------------------------------------------------------------------------
-- Claim C5: the complexity sort
-- ---------------------------------------------------------------------------

/-- Claim C5: with direction `desc` and pairwise-distinct (computed) scores
the sorted sequence is strictly decreasing in complexity; direction `asc`
yields the exact reverse of the `desc` sequence; and in the descending sort
the pulls of any one score keep their original relative order (ties are
broken by listing order). -/
theorem sortPullsByComplexity_spec :
    (∀ (o : Options) (data : List Pull),
        o.direction = some DIRECTION_DESC →
        (∀ p ∈ data, p.complexity.isSome = true) →
        data.Pairwise (fun a b => a.complexity ≠ b.complexity) →
        (sortPullsByComplexity o data).Pairwise
          (fun a b => jsGtOpt a.complexity b.complexity = true))
      ∧ (∀ (oAsc oDesc : Options) (data : List Pull),
        oAsc.direction = some DIRECTION_ASC → oDesc.direction = some DIRECTION_DESC →
        sortPullsByComplexity oAsc data = (sortPullsByComplexity oDesc data).reverse)
      ∧ (∀ (o : Options) (data : List Pull) (c : Nat),
        o.direction = some DIRECTION_DESC →
        (sortPullsByComplexity o data).filter (fun p => p.complexity == some c)
          = data.filter (fun p => p.complexity == some c)) := by
  refine ⟨?_, ?_, ?_⟩
  · intro o data hdir hsome hne
    rw [sortPulls_desc_eq o data hdir]
    have hsorted := pairwise_le_insertionSort data hsome
    have hne2 : (insertionSortPulls data).Pairwise
        (fun a b => a.complexity ≠ b.complexity) :=
      (List.Perm.pairwise_iff (fun h => h.symm) (insertionSortPulls_perm data)).mpr hne
    refine pairwise_imp_mem ?_ (hsorted.and hne2)
    intro a b ha hb hab
    obtain ⟨x, hx⟩ := Option.isSome_iff_exists.mp
      (hsome a ((mem_insertionSortPulls a data).mp ha))
    obtain ⟨y, hy⟩ := Option.isSome_iff_exists.mp
      (hsome b ((mem_insertionSortPulls b data).mp hb))
    rcases hab with ⟨h1, h2⟩
    simp [pullLe, jsLtOpt, hx, hy] at h1
    rw [hx, hy] at h2
    simp [jsGtOpt, jsLtOpt, hx, hy]
    have : x ≠ y := fun hxy => h2 (by rw [hxy])
    omega
  · intro oAsc oDesc data hA hD
    rw [sortPulls_desc_eq oDesc data hD, sortPulls_asc_eq oAsc data hA]
  · intro o data c hdir
    rw [sortPulls_desc_eq o data hdir]
    exact filter_insertionSort_eq data c

/-- Claim C5, witness: the scores `[10, 50]` sort descending to `[50, 10]`,
the ascending direction is its exact reverse, and the tie filter of score
10 is preserved. -/
theorem sortPullsByComplexity_spec_witness :
    (sortPullsByComplexity oDescW [pTen, pFifty]).Pairwise
        (fun a b => jsGtOpt a.complexity b.complexity = true)
      ∧ sortPullsByComplexity oAscW [pTen, pFifty]
        = (sortPullsByComplexity oDescW [pTen, pFifty]).reverse
      ∧ (sortPullsByComplexity oDescW [pTen, pFifty]).filter
          (fun p => p.complexity == some 10)
        = [pTen, pFifty].filter (fun p => p.complexity == some 10) :=
  ⟨sortPullsByComplexity_spec.1 oDescW [pTen, pFifty] rfl (by decide) (by decide),
   sortPullsByComplexity_spec.2.1 oAscW oDescW [pTen, pFifty] rfl rfl,
   sortPullsByComplexity_spec.2.2 oDescW [pTen, pFifty] 10 rfl⟩
